import Mathlib

/-!
Verification of the DGtal convexity core: the `NeighborhoodConvexityAnalyzer`
(src/DGtal/geometry/volumes/NeighborhoodConvexityAnalyzer.h) and the
`ConvexityHelper` hull services
(src/DGtal/geometry/volumes/ConvexityHelper.h).

Points are lattice points, embedded as lists of integers.  The external
digital-convexity oracle (`DigitalConvexity`) and the external exact hull
algorithm (QuickHull) are out-of-scope collaborators; they appear as
parameters (pure functions / a run-result record), exactly as the headers
consume them.

Each stateful analyzer method is embedded as a function from the analyzer
state to (returned boolean, new state, number of oracle invocations made
during the call); the invocation count is instrumentation that lets us state
memoization properties ("the oracle is called at most once").
-/

namespace DGtalV

/-- A lattice point: a tuple of integers (one coordinate per dimension). -/
abbrev Point := List ℤ

/-- Inner product of two coordinate lists (truncating to the shorter one). -/
def dotP (a p : Point) : ℤ := (List.zipWith (· * ·) a p).sum

/-- A hyper-rectangular domain, given by its lowest and highest points
(`HyperRectDomain`). -/
structure DomainB where
  lo : Point
  hi : Point
deriving Repr, DecidableEq

/-- Membership of a point in a hyper-rectangular domain: coordinatewise
between `lo` and `hi`. -/
def inDomain (D : DomainB) (p : Point) : Bool :=
  (List.zip D.lo (List.zip D.hi p)).all fun lhx =>
    decide (lhx.1 ≤ lhx.2.2) && decide (lhx.2.2 ≤ lhx.2.1)

/-- The external digital-convexity oracle (class `DigitalConvexity`): two pure
boolean tests over an arbitrary point collection. -/
structure DigitalConvexity where
  isFullyConvex : List Point → Bool
  is0Convex : List Point → Bool

/-! ### The `Computation` enum of `NeighborhoodConvexityAnalyzer`

The source declares eight mask constants, one per predicate variant
(`NeighborhoodConvexityAnalyzer.h`, lines 297-306). -/

def FullConvexity_X_with_center : ℕ := 0x1
def FullConvexity_X_without_center : ℕ := 0x2
def FullConvexity_CompX_with_center : ℕ := 0x4
def FullConvexity_CompX_without_center : ℕ := 0x8
def Convexity_X_with_center : ℕ := 0x10
def Convexity_X_without_center : ℕ := 0x20
def Convexity_CompX_with_center : ℕ := 0x40
def Convexity_CompX_without_center : ℕ := 0x80

/-- The mutable state of a `NeighborhoodConvexityAnalyzer`: the bounding
domain, the current center, the neighborhood partition `myLocalX` /
`myLocalCompX`, whether the center is in X, and the two memoization bitmasks
`myComputations` / `myResults`. -/
structure NCAState where
  myDomain : DomainB
  myCenter : Point
  myLocalX : List Point
  myLocalCompX : List Point
  myCenterInX : Bool
  myComputations : ℕ
  myResults : ℕ
deriving Repr, DecidableEq

/-- Constructor from lower and upper points
(`NeighborhoodConvexityAnalyzer.h`, lines 132-137): records the domain and
zeroes both bitmasks; the remaining fields are default-initialized. -/
def NCAState.init (lo hi : Point) : NCAState :=
  { myDomain := { lo := lo, hi := hi }
    myCenter := []
    myLocalX := []
    myLocalCompX := []
    myCenterInX := false
    myComputations := 0
    myResults := 0 }

/-- The coordinate offsets `-K, ..., K` spanned by the neighborhood in one
dimension. -/
def rangeK (K : ℕ) : List ℤ :=
  (List.range (2 * K + 1)).map fun i => (i : ℤ) - (K : ℤ)

/-- All offset vectors of the `(2K+1)^d` neighborhood window. -/
def offsets (K : ℕ) : ℕ → List Point
  | 0 => [[]]
  | d + 1 => (rangeK K).flatMap fun x => (offsets K d).map fun rest => x :: rest

/-- Coordinatewise sum of two points. -/
def addP (c q : Point) : Point := List.zipWith (· + ·) c q

/-- Modelled from the spec: the body of
`NeighborhoodConvexityAnalyzer::setCenter` is in
`NeighborhoodConvexityAnalyzer.ih`, which is not among the sources.  Per the
spec it sets `center = c`, sets `center ∈ X` from the membership predicate
`X`, scans every point of the fixed `(2K+1)^dimension` window around `c`
restricted to the analyzer's bounding domain, partitions it (excluding `c`
itself) into `myLocalX` / `myLocalCompX` according to `X`, and resets all
memoization bits (`myComputations`/`myResults`) to zero. -/
def setCenter (K d : ℕ) (s : NCAState) (c : Point) (X : Point → Bool) :
    NCAState :=
  let window := ((offsets K d).map (addP c)).filter
      fun p => inDomain s.myDomain p && decide (p ≠ c)
  { s with
    myCenter := c
    myCenterInX := X c
    myLocalX := window.filter X
    myLocalCompX := window.filter fun p => ! X p
    myComputations := 0
    myResults := 0 }

/-- Embeds `NeighborhoodConvexityAnalyzer::isFullyConvex` (header lines
212-223): check the memoization bit for the `FullConvexity_X_*` mask; on a
miss, temporarily push the center onto `myLocalX` when `with_center` holds,
query the oracle's full-convexity test, pop it again, and record both bits.
Third component: number of oracle invocations during the call. -/
def isFullyConvex (DC : DigitalConvexity) (s : NCAState) (with_center : Bool) :
    Bool × NCAState × ℕ :=
  let mask := if with_center then FullConvexity_X_with_center
              else FullConvexity_X_without_center
  if s.myComputations &&& mask ≠ 0 then
    (s.myResults &&& mask != 0, s, 0)
  else
    let s1 := if with_center then
        { s with myLocalX := s.myLocalX ++ [s.myCenter] } else s
    let ok := DC.isFullyConvex s1.myLocalX
    let s2 := if with_center then
        { s1 with myLocalX := s1.myLocalX.dropLast } else s1
    (ok,
     { s2 with
       myComputations := s2.myComputations ||| mask
       myResults := if ok then s2.myResults ||| mask else s2.myResults },
     1)

/-- Embeds `NeighborhoodConvexityAnalyzer::isComplementaryFullyConvex`
(header lines 230-241): same as `isFullyConvex` but on `myLocalCompX` with
the `FullConvexity_CompX_*` masks. -/
def isComplementaryFullyConvex (DC : DigitalConvexity) (s : NCAState)
    (with_center : Bool) : Bool × NCAState × ℕ :=
  let mask := if with_center then FullConvexity_CompX_with_center
              else FullConvexity_CompX_without_center
  if s.myComputations &&& mask ≠ 0 then
    (s.myResults &&& mask != 0, s, 0)
  else
    let s1 := if with_center then
        { s with myLocalCompX := s.myLocalCompX ++ [s.myCenter] } else s
    let ok := DC.isFullyConvex s1.myLocalCompX
    let s2 := if with_center then
        { s1 with myLocalCompX := s1.myLocalCompX.dropLast } else s1
    (ok,
     { s2 with
       myComputations := s2.myComputations ||| mask
       myResults := if ok then s2.myResults ||| mask else s2.myResults },
     1)

/-- Embeds `NeighborhoodConvexityAnalyzer::is0Convex` (header lines
248-259).  Note that the source computes its mask from
`FullConvexity_X_with_center` / `FullConvexity_X_without_center` — the same
constants as `isFullyConvex` — and not from the (unused) `Convexity_X_*`
constants of the `Computation` enum; this embedding reproduces that
faithfully. -/
def is0Convex (DC : DigitalConvexity) (s : NCAState) (with_center : Bool) :
    Bool × NCAState × ℕ :=
  let mask := if with_center then FullConvexity_X_with_center
              else FullConvexity_X_without_center
  if s.myComputations &&& mask ≠ 0 then
    (s.myResults &&& mask != 0, s, 0)
  else
    let s1 := if with_center then
        { s with myLocalX := s.myLocalX ++ [s.myCenter] } else s
    let ok := DC.is0Convex s1.myLocalX
    let s2 := if with_center then
        { s1 with myLocalX := s1.myLocalX.dropLast } else s1
    (ok,
     { s2 with
       myComputations := s2.myComputations ||| mask
       myResults := if ok then s2.myResults ||| mask else s2.myResults },
     1)

/-- Embeds `NeighborhoodConvexityAnalyzer::isComplementary0Convex` (header
lines 266-277); like `is0Convex`, the source reuses the
`FullConvexity_CompX_*` masks. -/
def isComplementary0Convex (DC : DigitalConvexity) (s : NCAState)
    (with_center : Bool) : Bool × NCAState × ℕ :=
  let mask := if with_center then FullConvexity_CompX_with_center
              else FullConvexity_CompX_without_center
  if s.myComputations &&& mask ≠ 0 then
    (s.myResults &&& mask != 0, s, 0)
  else
    let s1 := if with_center then
        { s with myLocalCompX := s.myLocalCompX ++ [s.myCenter] } else s
    let ok := DC.is0Convex s1.myLocalCompX
    let s2 := if with_center then
        { s1 with myLocalCompX := s1.myLocalCompX.dropLast } else s1
    (ok,
     { s2 with
       myComputations := s2.myComputations ||| mask
       myResults := if ok then s2.myResults ||| mask else s2.myResults },
     1)

/-- Embeds `NeighborhoodConvexityAnalyzer::isFullyConvexCollapsible` (header
lines 195-205), including the C++ `&&` short-circuit order: the emptiness
test is evaluated first (no oracle call when the relevant list is empty),
then the with-center predicate, then the without-center predicate. -/
def isFullyConvexCollapsible (DC : DigitalConvexity) (s : NCAState) :
    Bool × NCAState × ℕ :=
  if s.myCenterInX then
    if s.myLocalX.isEmpty then (false, s, 0)
    else
      let r1 := isFullyConvex DC s true
      if r1.1 then
        let r2 := isFullyConvex DC r1.2.1 false
        (r2.1, r2.2.1, r1.2.2 + r2.2.2)
      else (false, r1.2.1, r1.2.2)
  else
    if s.myLocalCompX.isEmpty then (false, s, 0)
    else
      let r1 := isComplementaryFullyConvex DC s true
      if r1.1 then
        let r2 := isComplementaryFullyConvex DC r1.2.1 false
        (r2.1, r2.2.1, r1.2.2 + r2.2.2)
      else (false, r1.2.1, r1.2.2)

/-! ### ConvexityHelper

`ConvexityHelper.h` only declares its operations; their bodies live in
`ConvexityHelper.ih`, which is not among the sources.  The operations below
are therefore modelled from the spec.  The external QuickHull algorithm is an
out-of-scope black box: per the spec it exposes a vertex list, a ridge set
and a facet set, gated by a monotone completion status, plus (for the
polytope builder) one supporting half-space per facet; a kernel is embedded
as a function from the input point range to such a run result. -/

/-- Completion status of a hull run (spec: `NotStarted < VerticesCompleted <
AllCompleted`). -/
inductive HullStatus
  | NotStarted
  | VerticesCompleted
  | AllCompleted
deriving Repr, DecidableEq

/-- An integer half-space inequality `a · x ≤ b` of the H-representation. -/
structure HalfSpace where
  a : Point
  b : ℤ
deriving Repr, DecidableEq

/-- A point satisfies a half-space when its inner product with the normal is
at most the offset. -/
def satisfiesHS (p : Point) (h : HalfSpace) : Prop := dotP h.a p ≤ h.b

instance (p : Point) (h : HalfSpace) : Decidable (satisfiesHS p h) := by
  unfold satisfiesHS; infer_instance

/-- Modelled from the spec: the outcome of one run of the external hull
algorithm (QuickHull), as consumed by `ConvexityHelper` — vertex positions,
per-cell vertex index lists, the enumeration of ridges (pair of adjacent
cells, with the shared vertex index set), per-facet vertex index lists, and
one supporting half-space per facet; everything gated by the completion
status (a degenerate, not full-dimensional input does not reach
`AllCompleted`). -/
structure HullRun where
  status : HullStatus
  vpositions : List Point
  cells : List (List ℕ)
  ridges : List ((ℕ × ℕ) × List ℕ)
  facets : List (List ℕ)
  facetHalfspaces : List HalfSpace
deriving Repr

/-- Input preprocessing: the `remove_duplicates` toggle collapses repeated
input points before the hull computation. -/
def processInput (remove_duplicates : Bool) (input : List Point) :
    List Point :=
  if remove_duplicates then input.dedup else input

/-- Largest i-th coordinate over a point range (0 on the empty range). -/
def coordMax (pts : List Point) (i : ℕ) : ℤ :=
  match pts with
  | [] => 0
  | p :: ps => max (p.getD i 0) (coordMax ps i)

/-- Smallest i-th coordinate over a point range (0 on the empty range). -/
def coordMin (pts : List Point) (i : ℕ) : ℤ :=
  match pts with
  | [] => 0
  | p :: ps => min (p.getD i 0) (coordMin ps i)

/-- The i-th coordinate unit vector in dimension d. -/
def unitP : ℕ → ℕ → Point
  | 0, _ => []
  | d + 1, 0 => 1 :: List.replicate d 0
  | d + 1, i + 1 => 0 :: unitP d i

/-- The 2·dimension axis-aligned bounding half-spaces of a point range:
for each coordinate axis, an upper bound `x_i ≤ max` and a lower bound
`-x_i ≤ -min`. -/
def bboxHS (d : ℕ) (pts : List Point) : List HalfSpace :=
  (List.range d).flatMap fun i =>
    [ { a := unitP d i, b := coordMax pts i },
      { a := (unitP d i).map (fun x => -x), b := -(coordMin pts i) } ]

/-- Modelled from the spec: `ConvexityHelper::computeLatticePolytope`
(declared at `ConvexityHelper.h` lines 106-110; body in the missing
`ConvexityHelper.ih`).  Optionally dedups the input, runs the
integral-convex kernel; if the run does not complete (points not
full-dimensional) returns the empty-polytope sentinel (`none`); otherwise
returns one half-space per hull facet, with the 2·dimension axis-aligned
bounding inequalities appended when `make_minkowski_summable` is set. -/
def computeLatticePolytope (d : ℕ) (kernel : List Point → HullRun)
    (input : List Point) (remove_duplicates make_minkowski_summable : Bool) :
    Option (List HalfSpace) :=
  let pts := processInput remove_duplicates input
  let run := kernel pts
  if run.status = HullStatus.AllCompleted then
    some (run.facetHalfspaces ++
      if make_minkowski_summable then bboxHS d pts else [])
  else none

/-- The canonical representative of a ridge: a ridge is an unordered pair
of cell identifiers, embedded as the ordered pair with the smaller cell
first, so that the two orientations of the same ridge compare equal. -/
def normRidge (r : ℕ × ℕ) : ℕ × ℕ := if r.1 ≤ r.2 then r else (r.2, r.1)

/-- One step of the facet/ridge extraction: if this unordered pair of cells
was already seen (in either orientation), skip it; otherwise assign it the
next unused facet index and record the ridge's shared vertex set as that
facet's vertex list. -/
def insertRidge (acc : List ((ℕ × ℕ) × ℕ) × List (List ℕ))
    (rv : (ℕ × ℕ) × List ℕ) : List ((ℕ × ℕ) × ℕ) × List (List ℕ) :=
  if normRidge rv.1 ∈ acc.1.map Prod.fst then acc
  else (acc.1 ++ [(normRidge rv.1, acc.2.length)], acc.2 ++ [rv.2])

/-- Modelled from the spec: `ConvexityHelper::computeFacetAndRidgeVertices`
(declared at `ConvexityHelper.h` lines 233-239; body in the missing
`ConvexityHelper.ih`).  Per the spec: record every cell's vertex list; then,
iterating the hull's ridge enumeration, assign the next unused facet index
the first time each ridge — an unordered pair of cells, so both
orientations count as the same ridge, keyed by `normRidge` — is seen,
recording the facet's vertex list.  Returns
`(cell_vertices, r2f, face_vertices)`. -/
def computeFacetAndRidgeVertices (run : HullRun) :
    List (List ℕ) × List ((ℕ × ℕ) × ℕ) × List (List ℕ) :=
  (run.cells, run.ridges.foldl insertRidge ([], []))

/-- A polygonal surface: vertex positions plus ordered face-vertex index
lists. -/
structure PolygonalSurface where
  positions : List Point
  faces : List (List ℕ)
deriving Repr, DecidableEq

/-- An undirected edge, normalized as an ordered pair. -/
def edgeOf (u v : ℕ) : ℕ × ℕ := if u ≤ v then (u, v) else (v, u)

/-- The edges of one face, walking its vertex cycle. -/
def faceEdges : List ℕ → List (ℕ × ℕ)
  | [] => []
  | v :: vs => List.zipWith edgeOf (v :: vs) (vs ++ [v])

/-- The distinct edges of a polygonal surface. -/
def surfaceEdges (S : PolygonalSurface) : List (ℕ × ℕ) :=
  (S.faces.flatMap faceEdges).dedup

/-- Euler characteristic V − E + F of a polygonal surface. -/
def eulerCharacteristic (S : PolygonalSurface) : ℤ :=
  (S.positions.length : ℤ) - ((surfaceEdges S).length : ℤ)
    + (S.faces.length : ℤ)

/-- The Euler characteristic expected of the boundary of a full-dimensional
convex body in ambient dimension d: 0 when d is even, 2 when d is odd. -/
def expectedEuler (d : ℕ) : ℤ := if d % 2 = 0 then 0 else 2

/-- Modelled from the spec: `ConvexityHelper::computeConvexHullBoundary`
(declared at `ConvexityHelper.h` lines 155-159; body in the missing
`ConvexityHelper.ih`).  Optionally dedups the input and runs the
integral-convex kernel; returns `false` (empty surface) if the run does not
complete (points not full-dimensional); otherwise initializes the surface
from the hull's vertex positions and facet vertex lists and, as the spec
prescribes, verifies that the Euler characteristic matches the parity-based
expected value, returning `true` exactly when the output surface is
correct. -/
def computeConvexHullBoundary (d : ℕ) (kernel : List Point → HullRun)
    (input : List Point) (remove_duplicates : Bool) :
    Bool × PolygonalSurface :=
  let pts := processInput remove_duplicates input
  let run := kernel pts
  if run.status = HullStatus.AllCompleted then
    let surf : PolygonalSurface :=
      { positions := run.vpositions, faces := run.facets }
    (eulerCharacteristic surf = expectedEuler d, surf)
  else (false, { positions := [], faces := [] })

/-- A convex cell complex: vertices, top-dimensional cells and
codimension-1 cells, each cell an ordered vertex-index list. -/
structure ConvexCellComplex where
  vertices : List Point
  topCells : List (List ℕ)
  faceCells : List (List ℕ)
deriving Repr, DecidableEq

/-- The empty cell complex. -/
def emptyComplex : ConvexCellComplex :=
  { vertices := [], topCells := [], faceCells := [] }

/-- Modelled from the spec: `ConvexityHelper::computeConvexHullCellComplex`
(declared at `ConvexityHelper.h` lines 176-180; body in the missing
`ConvexityHelper.ih`).  Returns `false` if the run does not complete (points
not full-dimensional); otherwise builds one maximal cell spanning all hull
vertices and one codimension-1 cell per facet. -/
def computeConvexHullCellComplex (kernel : List Point → HullRun)
    (input : List Point) (remove_duplicates : Bool) :
    Bool × ConvexCellComplex :=
  let pts := processInput remove_duplicates input
  let run := kernel pts
  if run.status = HullStatus.AllCompleted then
    (true,
     { vertices := run.vpositions
       topCells := [List.range run.vpositions.length]
       faceCells := run.facets })
  else (false, emptyComplex)

/-- The paraboloid lift: append one extra coordinate equal to the sum of the
squares of the coordinates. -/
def liftPoint (p : Point) : Point := p ++ [(p.map fun x => x * x).sum]

/-- Modelled from the spec: `ConvexityHelper::computeDelaunayCellComplex`
(declared at `ConvexityHelper.h` lines 205-209; body in the missing
`ConvexityHelper.ih`).  Lifts every point by the paraboloid lift, runs the
Delaunay-flavored hull kernel on the lifted points; returns `false` if the
(lifted) input was not full-dimensional; otherwise the (lower) hull cells
become top-dimensional cells, ridge-derived facets become codimension-1
cells, and vertex positions are projected back by dropping the lifted
coordinate. -/
def computeDelaunayCellComplex (dkernel : List Point → HullRun)
    (input : List Point) (remove_duplicates : Bool) :
    Bool × ConvexCellComplex :=
  let pts := processInput remove_duplicates input
  let lifted := pts.map liftPoint
  let run := dkernel lifted
  if run.status = HullStatus.AllCompleted then
    let frv := computeFacetAndRidgeVertices run
    (true,
     { vertices := run.vpositions.map List.dropLast
       topCells := frv.1
       faceCells := frv.2.2 })
  else (false, emptyComplex)

/-- A point range of ambient dimension d is affinely degenerate (its affine
span has dimension < d) exactly when all its points lie in a common
hyperplane `a · x = b` with a nonzero normal vector of length d. -/
def affineDegenerate (d : ℕ) (pts : List Point) : Prop :=
  ∃ a : Point, ∃ b : ℤ,
    a.length = d ∧ (∃ x ∈ a, x ≠ 0) ∧ ∀ p ∈ pts, dotP a p = b

/-! ### Concrete instances used to evaluate the development on inputs -/

/-- A stub oracle whose full-convexity test always answers true and whose
0-convexity test always answers false; it distinguishes the two predicate
families. -/
def oracleSplit : DigitalConvexity :=
  { isFullyConvex := fun _ => true
    is0Convex := fun _ => false }

/-- A stub oracle answering true on both tests. -/
def oracleTrue : DigitalConvexity :=
  { isFullyConvex := fun _ => true
    is0Convex := fun _ => true }

/-- A concrete digital set on the 2D lattice: the two points (0,0) and
(1,0). -/
def memX2 : Point → Bool := fun p => p == [0, 0] || p == [1, 0]

/-- The analyzer state obtained by centering a K = 1, dimension 2 analyzer
on (0,0) over the digital set `memX2`, inside the domain [-2,2]^2. -/
def sCenter00 : NCAState :=
  setCenter 1 2 (NCAState.init [-2, -2] [2, 2]) [0, 0] memX2

/-- A hull-kernel stub that never completes (as on degenerate input). -/
def haltedKernel : List Point → HullRun := fun _ =>
  { status := HullStatus.NotStarted
    vpositions := []
    cells := []
    ridges := []
    facets := []
    facetHalfspaces := [] }

/-- A hull-kernel stub that completes but reports no facets. -/
def completedKernel : List Point → HullRun := fun pts =>
  { status := HullStatus.AllCompleted
    vpositions := pts
    cells := []
    ridges := []
    facets := []
    facetHalfspaces := [] }

/-- Three collinear points on the x axis of the 2D lattice: an affinely
degenerate input. -/
def collinearInput : List Point := [[0, 0], [1, 0], [2, 0]]

/-- The 8 corners of the 3D unit cube. -/
def cubeInput : List Point :=
  [[0, 0, 0], [1, 0, 0], [0, 1, 0], [1, 1, 0],
   [0, 0, 1], [1, 0, 1], [0, 1, 1], [1, 1, 1]]

/-- The completed hull run of the 3D unit cube: its 8 vertices and 6 quad
facets. -/
def cubeRun : HullRun :=
  { status := HullStatus.AllCompleted
    vpositions := cubeInput
    cells := []
    ridges := []
    facets := [[0, 1, 3, 2], [4, 5, 7, 6], [0, 1, 5, 4],
               [2, 3, 7, 6], [0, 2, 6, 4], [1, 3, 7, 5]]
    facetHalfspaces := [] }

/-- A hull-kernel stub returning the cube hull run. -/
def cubeKernel : List Point → HullRun := fun _ => cubeRun

/-- A hull run with a small ridge enumeration (each ridge listed twice, as
seen from each of its two incident cells). -/
def ridgeRun : HullRun :=
  { status := HullStatus.AllCompleted
    vpositions := []
    cells := [[0, 1, 2], [0, 1, 3], [1, 2, 3]]
    ridges := [((0, 1), [0, 1]), ((0, 2), [1, 2]), ((1, 0), [0, 1]),
               ((1, 2), [1, 3]), ((2, 0), [1, 2]), ((2, 1), [1, 3])]
    facets := []
    facetHalfspaces := [] }

/-- The polytope produced by `computeLatticePolytope` on the input
[[0,0],[3,1]] with the facet-free completed kernel and both toggles set:
just the four bounding-box half-spaces. -/
def bboxPolytope : List HalfSpace :=
  bboxHS 2 (processInput true [[0, 0], [3, 1]])

/-! ### Reachable analyzer states

The states a `NeighborhoodConvexityAnalyzer` can be in: freshly constructed,
or obtained from a reachable state by `setCenter` or by any of the public
predicate queries. -/

inductive Reachable (K d : ℕ) (DC : DigitalConvexity) : NCAState → Prop
  | init (lo hi : Point) : Reachable K d DC (NCAState.init lo hi)
  | recenter {s : NCAState} (c : Point) (X : Point → Bool) :
      Reachable K d DC s → Reachable K d DC (setCenter K d s c X)
  | queryFC {s : NCAState} (b : Bool) :
      Reachable K d DC s → Reachable K d DC (isFullyConvex DC s b).2.1
  | queryCFC {s : NCAState} (b : Bool) :
      Reachable K d DC s →
      Reachable K d DC (isComplementaryFullyConvex DC s b).2.1
  | query0C {s : NCAState} (b : Bool) :
      Reachable K d DC s → Reachable K d DC (is0Convex DC s b).2.1
  | queryC0C {s : NCAState} (b : Bool) :
      Reachable K d DC s →
      Reachable K d DC (isComplementary0Convex DC s b).2.1
  | queryCollapsible {s : NCAState} :
      Reachable K d DC s →
      Reachable K d DC (isFullyConvexCollapsible DC s).2.1

/-- The cache-inclusion invariant: the recorded-outcome mask is covered by
the evaluated mask. -/
def cacheInv (s : NCAState) : Prop :=
  s.myResults ||| s.myComputations = s.myComputations

/-- A recorded-outcome update on a cache hit of the oracle: both masks gain
the same bit, so inclusion is preserved. -/
lemma lor_mask_true (comps res m : ℕ) (h : res ||| comps = comps) :
    (res ||| m) ||| (comps ||| m) = comps ||| m := by
  apply Nat.eq_of_testBit_eq
  intro i
  have hb := congrArg (fun n => n.testBit i) h
  simp only [Nat.testBit_lor] at hb ⊢
  cases hres : res.testBit i <;> cases hc : comps.testBit i <;>
    cases hm2 : m.testBit i <;> simp_all

/-- A computations-only update (negative oracle outcome) preserves
inclusion. -/
lemma lor_mask_false (comps res m : ℕ) (h : res ||| comps = comps) :
    res ||| (comps ||| m) = comps ||| m := by
  apply Nat.eq_of_testBit_eq
  intro i
  have hb := congrArg (fun n => n.testBit i) h
  simp only [Nat.testBit_lor] at hb ⊢
  cases hres : res.testBit i <;> cases hc : comps.testBit i <;>
    cases hm2 : m.testBit i <;> simp_all

lemma cacheInv_isFullyConvex (DC : DigitalConvexity) (s : NCAState)
    (b : Bool) (h : cacheInv s) : cacheInv (isFullyConvex DC s b).2.1 := by
  cases b <;> unfold cacheInv at h ⊢ <;>
    simp only [isFullyConvex] <;> split_ifs <;>
    first
      | exact h
      | exact lor_mask_true s.myComputations s.myResults _ h
      | exact lor_mask_false s.myComputations s.myResults _ h

lemma cacheInv_isComplementaryFullyConvex (DC : DigitalConvexity)
    (s : NCAState) (b : Bool) (h : cacheInv s) :
    cacheInv (isComplementaryFullyConvex DC s b).2.1 := by
  cases b <;> unfold cacheInv at h ⊢ <;>
    simp only [isComplementaryFullyConvex] <;> split_ifs <;>
    first
      | exact h
      | exact lor_mask_true s.myComputations s.myResults _ h
      | exact lor_mask_false s.myComputations s.myResults _ h

lemma cacheInv_is0Convex (DC : DigitalConvexity) (s : NCAState)
    (b : Bool) (h : cacheInv s) : cacheInv (is0Convex DC s b).2.1 := by
  cases b <;> unfold cacheInv at h ⊢ <;>
    simp only [is0Convex] <;> split_ifs <;>
    first
      | exact h
      | exact lor_mask_true s.myComputations s.myResults _ h
      | exact lor_mask_false s.myComputations s.myResults _ h

lemma cacheInv_isComplementary0Convex (DC : DigitalConvexity) (s : NCAState)
    (b : Bool) (h : cacheInv s) :
    cacheInv (isComplementary0Convex DC s b).2.1 := by
  cases b <;> unfold cacheInv at h ⊢ <;>
    simp only [isComplementary0Convex] <;> split_ifs <;>
    first
      | exact h
      | exact lor_mask_true s.myComputations s.myResults _ h
      | exact lor_mask_false s.myComputations s.myResults _ h

lemma cacheInv_isFullyConvexCollapsible (DC : DigitalConvexity)
    (s : NCAState) (h : cacheInv s) :
    cacheInv (isFullyConvexCollapsible DC s).2.1 := by
  unfold isFullyConvexCollapsible
  by_cases hin : s.myCenterInX = true
  · by_cases hem : s.myLocalX.isEmpty = true
    · simp only [hin, hem, if_true]
      exact h
    · by_cases hok : (isFullyConvex DC s true).1 = true <;>
        simp only [hin, hem, hok, if_true, if_false, Bool.false_eq_true] <;>
        first
          | exact cacheInv_isFullyConvex DC _ false
              (cacheInv_isFullyConvex DC s true h)
          | exact cacheInv_isFullyConvex DC s true h
  · by_cases hem : s.myLocalCompX.isEmpty = true
    · simp only [hin, hem, if_true, if_false, Bool.false_eq_true]
      exact h
    · by_cases hok : (isComplementaryFullyConvex DC s true).1 = true <;>
        simp only [hin, hem, hok, if_true, if_false, Bool.false_eq_true] <;>
        first
          | exact cacheInv_isComplementaryFullyConvex DC _ false
              (cacheInv_isComplementaryFullyConvex DC s true h)
          | exact cacheInv_isComplementaryFullyConvex DC s true h

lemma cacheInv_reachable {K d : ℕ} {DC : DigitalConvexity} {s : NCAState}
    (h : Reachable K d DC s) : cacheInv s := by
  induction h with
  | init lo hi => simp [cacheInv, NCAState.init]
  | recenter c X _ _ => simp [cacheInv, setCenter]
  | queryFC b _ ih => exact cacheInv_isFullyConvex _ _ b ih
  | queryCFC b _ ih => exact cacheInv_isComplementaryFullyConvex _ _ b ih
  | query0C b _ ih => exact cacheInv_is0Convex _ _ b ih
  | queryC0C b _ ih => exact cacheInv_isComplementary0Convex _ _ b ih
  | queryCollapsible _ ih => exact cacheInv_isFullyConvexCollapsible _ _ ih

/-! ### Frame lemmas for the predicate accessors -/

lemma frame_isFullyConvex (DC : DigitalConvexity) (s : NCAState) (b : Bool) :
    (isFullyConvex DC s b).2.1.myLocalX = s.myLocalX
    ∧ (isFullyConvex DC s b).2.1.myLocalCompX = s.myLocalCompX
    ∧ (isFullyConvex DC s b).2.1.myCenter = s.myCenter
    ∧ (isFullyConvex DC s b).2.1.myDomain = s.myDomain
    ∧ (isFullyConvex DC s b).2.1.myCenterInX = s.myCenterInX := by
  cases b <;> simp only [isFullyConvex] <;> split_ifs <;> simp

lemma frame_isComplementaryFullyConvex (DC : DigitalConvexity)
    (s : NCAState) (b : Bool) :
    (isComplementaryFullyConvex DC s b).2.1.myLocalX = s.myLocalX
    ∧ (isComplementaryFullyConvex DC s b).2.1.myLocalCompX = s.myLocalCompX
    ∧ (isComplementaryFullyConvex DC s b).2.1.myCenter = s.myCenter
    ∧ (isComplementaryFullyConvex DC s b).2.1.myDomain = s.myDomain
    ∧ (isComplementaryFullyConvex DC s b).2.1.myCenterInX = s.myCenterInX := by
  cases b <;> simp only [isComplementaryFullyConvex] <;> split_ifs <;> simp

lemma frame_is0Convex (DC : DigitalConvexity) (s : NCAState) (b : Bool) :
    (is0Convex DC s b).2.1.myLocalX = s.myLocalX
    ∧ (is0Convex DC s b).2.1.myLocalCompX = s.myLocalCompX
    ∧ (is0Convex DC s b).2.1.myCenter = s.myCenter
    ∧ (is0Convex DC s b).2.1.myDomain = s.myDomain
    ∧ (is0Convex DC s b).2.1.myCenterInX = s.myCenterInX := by
  cases b <;> simp only [is0Convex] <;> split_ifs <;> simp

lemma frame_isComplementary0Convex (DC : DigitalConvexity) (s : NCAState)
    (b : Bool) :
    (isComplementary0Convex DC s b).2.1.myLocalX = s.myLocalX
    ∧ (isComplementary0Convex DC s b).2.1.myLocalCompX = s.myLocalCompX
    ∧ (isComplementary0Convex DC s b).2.1.myCenter = s.myCenter
    ∧ (isComplementary0Convex DC s b).2.1.myDomain = s.myDomain
    ∧ (isComplementary0Convex DC s b).2.1.myCenterInX = s.myCenterInX := by
  cases b <;> simp only [isComplementary0Convex] <;> split_ifs <;> simp

/-! ### Claim theorems: NeighborhoodConvexityAnalyzer -/

/-- Claim C1 (code bug, evaluated at the failing input): with the stub
oracle whose full-convexity test always answers true and whose 0-convexity
test always answers false, after one `setCenter`, `isFullyConvex true`
answers true, and the subsequent `is0Convex true` also answers true while
making zero oracle invocations — it returns the cached full-convexity
outcome, although its own oracle test on the same point list answers false.
The claim's premise that the two predicate families use distinct cache slots
fails on the code, because `is0Convex` computes its mask from the
`FullConvexity_X_*` constants. -/
theorem claim1_mask_aliasing_eval :
    (isFullyConvex oracleSplit sCenter00 true).1 = true
    ∧ (is0Convex oracleSplit (isFullyConvex oracleSplit sCenter00 true).2.1
        true).1 = true
    ∧ (is0Convex oracleSplit (isFullyConvex oracleSplit sCenter00 true).2.1
        true).2.2 = 0
    ∧ oracleSplit.is0Convex (sCenter00.myLocalX ++ [sCenter00.myCenter])
        = false := by decide

/-- Claim C2: after one `setCenter`, calling `isFullyConvex true` twice
returns the same boolean both times, and the two calls together invoke the
oracle at most once (the second call is answered from the cache). -/
theorem claim2_memoization_idempotent (K d : ℕ) (DC : DigitalConvexity)
    (s0 : NCAState) (c : Point) (X : Point → Bool) :
    (isFullyConvex DC (isFullyConvex DC (setCenter K d s0 c X) true).2.1
        true).1
      = (isFullyConvex DC (setCenter K d s0 c X) true).1
    ∧ (isFullyConvex DC (setCenter K d s0 c X) true).2.2
      + (isFullyConvex DC (isFullyConvex DC (setCenter K d s0 c X) true).2.1
          true).2.2 ≤ 1 := by
  generalize hs : setCenter K d s0 c X = s
  have hc : s.myComputations = 0 := by rw [← hs]; rfl
  have hr : s.myResults = 0 := by rw [← hs]; rfl
  cases hok : DC.isFullyConvex (s.myLocalX ++ [s.myCenter]) <;>
    simp +decide [isFullyConvex, FullConvexity_X_with_center, hc, hr, hok]

/-- Claim C3: on any freshly centered state, `isFullyConvexCollapsible`
returns true iff, when the center is in X, `myLocalX` is non-empty and the
oracle's full-convexity test holds with and without the center, and
symmetrically for the complement when the center is not in X; moreover, when
the center is in X and `myLocalX` is empty, it returns false with no oracle
invocation and an unchanged state, whatever the oracle would answer. -/
theorem claim3_collapsible_characterization (K d : ℕ)
    (DC : DigitalConvexity) (s0 : NCAState) (c : Point) (X : Point → Bool) :
    ((isFullyConvexCollapsible DC (setCenter K d s0 c X)).1 =
      (if (setCenter K d s0 c X).myCenterInX then
        !(setCenter K d s0 c X).myLocalX.isEmpty
          && DC.isFullyConvex ((setCenter K d s0 c X).myLocalX
              ++ [(setCenter K d s0 c X).myCenter])
          && DC.isFullyConvex (setCenter K d s0 c X).myLocalX
      else
        !(setCenter K d s0 c X).myLocalCompX.isEmpty
          && DC.isFullyConvex ((setCenter K d s0 c X).myLocalCompX
              ++ [(setCenter K d s0 c X).myCenter])
          && DC.isFullyConvex (setCenter K d s0 c X).myLocalCompX))
    ∧ ((setCenter K d s0 c X).myCenterInX = true →
        (setCenter K d s0 c X).myLocalX = [] →
        isFullyConvexCollapsible DC (setCenter K d s0 c X)
          = (false, setCenter K d s0 c X, 0)) := by
  generalize hs : setCenter K d s0 c X = s
  have hc : s.myComputations = 0 := by rw [← hs]; rfl
  constructor
  · by_cases hin : s.myCenterInX = true
    · by_cases hem : s.myLocalX.isEmpty = true
      · simp [isFullyConvexCollapsible, hin, hem]
      · cases hok1 : DC.isFullyConvex (s.myLocalX ++ [s.myCenter]) <;>
          cases hok2 : DC.isFullyConvex s.myLocalX <;>
            simp +decide [isFullyConvexCollapsible, isFullyConvex,
              FullConvexity_X_with_center, FullConvexity_X_without_center,
              hin, hem, hc, hok1, hok2]
    · by_cases hem : s.myLocalCompX.isEmpty = true
      · simp [isFullyConvexCollapsible, hin, hem]
      · cases hok1 : DC.isFullyConvex (s.myLocalCompX ++ [s.myCenter]) <;>
          cases hok2 : DC.isFullyConvex s.myLocalCompX <;>
            simp +decide [isFullyConvexCollapsible,
              isComplementaryFullyConvex,
              FullConvexity_CompX_with_center,
              FullConvexity_CompX_without_center,
              hin, hem, hc, hok1, hok2]
  · intro h1 h2
    simp [isFullyConvexCollapsible, h1, h2]

/-- Claim C3 witness: for the concrete center (0,0) of `memX2` (which is in
X, with non-empty `myLocalX`) the characterization holds, and a state with
the center in X and empty `myLocalX` (center (2,2), outside of X is false,
so pick a version of the set where the window is empty of other members)
short-circuits.  Instantiated at `sCenter00` built by `setCenter`. -/
theorem claim3_collapsible_witness :
    ((isFullyConvexCollapsible oracleTrue sCenter00).1 =
      (if sCenter00.myCenterInX then
        !sCenter00.myLocalX.isEmpty
          && oracleTrue.isFullyConvex (sCenter00.myLocalX
              ++ [sCenter00.myCenter])
          && oracleTrue.isFullyConvex sCenter00.myLocalX
      else
        !sCenter00.myLocalCompX.isEmpty
          && oracleTrue.isFullyConvex (sCenter00.myLocalCompX
              ++ [sCenter00.myCenter])
          && oracleTrue.isFullyConvex sCenter00.myLocalCompX))
    ∧ (sCenter00.myCenterInX = true →
        sCenter00.myLocalX = [] →
        isFullyConvexCollapsible oracleTrue sCenter00
          = (false, sCenter00, 0)) :=
  claim3_collapsible_characterization 1 2 oracleTrue
    (NCAState.init [-2, -2] [2, 2]) [0, 0] memX2

/-- Claim C8: every predicate accessor restores `myLocalX` and
`myLocalCompX` to exactly their prior values (the temporarily appended
center is removed again), and leaves the center, domain and center-in-X flag
unchanged, for both values of `with_center`. -/
theorem claim8_frame_preservation (DC : DigitalConvexity) (s : NCAState)
    (b : Bool) :
    ((isFullyConvex DC s b).2.1.myLocalX = s.myLocalX
      ∧ (isFullyConvex DC s b).2.1.myLocalCompX = s.myLocalCompX
      ∧ (isFullyConvex DC s b).2.1.myCenter = s.myCenter
      ∧ (isFullyConvex DC s b).2.1.myDomain = s.myDomain
      ∧ (isFullyConvex DC s b).2.1.myCenterInX = s.myCenterInX)
    ∧ ((isComplementaryFullyConvex DC s b).2.1.myLocalX = s.myLocalX
      ∧ (isComplementaryFullyConvex DC s b).2.1.myLocalCompX = s.myLocalCompX
      ∧ (isComplementaryFullyConvex DC s b).2.1.myCenter = s.myCenter
      ∧ (isComplementaryFullyConvex DC s b).2.1.myDomain = s.myDomain
      ∧ (isComplementaryFullyConvex DC s b).2.1.myCenterInX = s.myCenterInX)
    ∧ ((is0Convex DC s b).2.1.myLocalX = s.myLocalX
      ∧ (is0Convex DC s b).2.1.myLocalCompX = s.myLocalCompX
      ∧ (is0Convex DC s b).2.1.myCenter = s.myCenter
      ∧ (is0Convex DC s b).2.1.myDomain = s.myDomain
      ∧ (is0Convex DC s b).2.1.myCenterInX = s.myCenterInX)
    ∧ ((isComplementary0Convex DC s b).2.1.myLocalX = s.myLocalX
      ∧ (isComplementary0Convex DC s b).2.1.myLocalCompX = s.myLocalCompX
      ∧ (isComplementary0Convex DC s b).2.1.myCenter = s.myCenter
      ∧ (isComplementary0Convex DC s b).2.1.myDomain = s.myDomain
      ∧ (isComplementary0Convex DC s b).2.1.myCenterInX = s.myCenterInX) :=
  ⟨frame_isFullyConvex DC s b, frame_isComplementaryFullyConvex DC s b,
   frame_is0Convex DC s b, frame_isComplementary0Convex DC s b⟩

/-- Claim C9: re-centering resets everything: the state after
`setCenter c X` does not depend on any prior field except the domain, and
both memoization masks read zero afterwards. -/
theorem claim9_recenter_resets (K d : ℕ) (s t : NCAState) (c : Point)
    (X : Point → Bool) (h : s.myDomain = t.myDomain) :
    setCenter K d s c X = setCenter K d t c X
    ∧ (setCenter K d s c X).myComputations = 0
    ∧ (setCenter K d s c X).myResults = 0 := by
  refine ⟨?_, rfl, rfl⟩
  unfold setCenter
  rw [h]

/-- Claim C9 witness: a centered-and-queried state and a fresh state over
the same domain re-center to the identical state, with both masks zero. -/
theorem claim9_recenter_witness :
    setCenter 1 2 sCenter00 [1, 0] memX2
      = setCenter 1 2 (NCAState.init [-2, -2] [2, 2]) [1, 0] memX2
    ∧ (setCenter 1 2 sCenter00 [1, 0] memX2).myComputations = 0
    ∧ (setCenter 1 2 sCenter00 [1, 0] memX2).myResults = 0 :=
  claim9_recenter_resets 1 2 sCenter00 (NCAState.init [-2, -2] [2, 2])
    [1, 0] memX2 rfl

/-- Claim C10: in every reachable analyzer state, every bit set in
`myResults` is also set in `myComputations`. -/
theorem claim10_results_within_computations (K d : ℕ)
    (DC : DigitalConvexity) (s : NCAState) (h : Reachable K d DC s) (i : ℕ)
    (hbit : s.myResults.testBit i = true) :
    s.myComputations.testBit i = true := by
  have hinv := cacheInv_reachable h
  have hth := congrArg (fun n => n.testBit i) hinv
  simp only [Nat.testBit_lor] at hth
  cases hcb : s.myComputations.testBit i <;> simp_all

/-- Claim C10 witness: the reachable state obtained by one `setCenter` and
one positive `isFullyConvex true` query has bit 0 set in `myResults`, and
the theorem yields that it is set in `myComputations` as well. -/
theorem claim10_results_within_computations_witness :
    Reachable 1 2 oracleTrue (isFullyConvex oracleTrue sCenter00 true).2.1
    ∧ (isFullyConvex oracleTrue sCenter00 true).2.1.myResults.testBit 0
        = true
    ∧ (isFullyConvex oracleTrue sCenter00 true).2.1.myComputations.testBit 0
        = true :=
  ⟨Reachable.queryFC true
      (Reachable.recenter [0, 0] memX2 (Reachable.init [-2, -2] [2, 2])),
   by decide,
   claim10_results_within_computations 1 2 oracleTrue _
     (Reachable.queryFC true
       (Reachable.recenter [0, 0] memX2 (Reachable.init [-2, -2] [2, 2])))
     0 (by decide)⟩

/-! ### Helper lemmas for the hull services -/

lemma mem_processInput (rd : Bool) (input : List Point) (p : Point)
    (h : p ∈ input) : p ∈ processInput rd input := by
  cases rd <;> simp [processInput, h]

lemma processInput_subset (rd : Bool) (input : List Point) (p : Point)
    (h : p ∈ processInput rd input) : p ∈ input := by
  cases rd <;> simp_all [processInput]

lemma affineDegenerate_processInput (d : ℕ) (rd : Bool)
    (input : List Point) (h : affineDegenerate d input) :
    affineDegenerate d (processInput rd input) := by
  obtain ⟨a, b, hlen, hnz, hall⟩ := h
  exact ⟨a, b, hlen, hnz,
    fun p hp => hall p (processInput_subset rd input p hp)⟩

lemma dotP_append_single (a p : Point) (y z : ℤ)
    (h : a.length = p.length) :
    dotP (a ++ [y]) (p ++ [z]) = dotP a p + y * z := by
  unfold dotP
  rw [List.zipWith_append _ _ _ _ _ h, List.sum_append]
  simp

lemma affineDegenerate_lift (d : ℕ) (pts : List Point)
    (hlen : ∀ p ∈ pts, p.length = d) (h : affineDegenerate d pts) :
    affineDegenerate (d + 1) (pts.map liftPoint) := by
  obtain ⟨a, b, ha, hnz, hall⟩ := h
  refine ⟨a ++ [0], b, by simp [ha], ?_, ?_⟩
  · obtain ⟨x, hx, hx0⟩ := hnz
    exact ⟨x, List.mem_append_left _ hx, hx0⟩
  · intro q hq
    obtain ⟨p, hp, rfl⟩ := List.mem_map.mp hq
    unfold liftPoint
    rw [dotP_append_single a p 0 _ (by rw [ha, hlen p hp])]
    simp [hall p hp]

lemma dotP_zeros (d : ℕ) (p : Point) :
    dotP (List.replicate d 0) p = 0 := by
  induction d generalizing p with
  | zero => simp [dotP]
  | succ n ih =>
    cases p with
    | nil => simp [dotP]
    | cons x xs =>
      simp only [List.replicate, dotP, List.zipWith_cons_cons,
        List.sum_cons, zero_mul, zero_add]
      exact ih xs

lemma dotP_unitP (d i : ℕ) (p : Point) (h : i < d) :
    dotP (unitP d i) p = p.getD i 0 := by
  induction d generalizing i p with
  | zero => omega
  | succ n ih =>
    cases i with
    | zero =>
      cases p with
      | nil => simp [dotP, unitP]
      | cons x xs =>
        simp only [unitP, dotP, List.zipWith_cons_cons, List.sum_cons,
          one_mul, List.getD_cons_zero]
        have hz := dotP_zeros n xs
        unfold dotP at hz
        rw [hz]
        ring
    | succ j =>
      cases p with
      | nil => simp [dotP, unitP]
      | cons x xs =>
        simp only [unitP, dotP, List.zipWith_cons_cons, List.sum_cons,
          zero_mul, zero_add, List.getD_cons_succ]
        exact ih j xs (by omega)

lemma dotP_negate (a p : Point) :
    dotP (a.map fun x => -x) p = -dotP a p := by
  induction a generalizing p with
  | nil => simp [dotP]
  | cons y ys ih =>
    cases p with
    | nil => simp [dotP]
    | cons x xs =>
      simp only [List.map_cons, dotP, List.zipWith_cons_cons,
        List.sum_cons, neg_mul]
      have := ih xs
      unfold dotP at this
      rw [this]
      ring

lemma getD_le_coordMax (pts : List Point) (p : Point) (i : ℕ)
    (h : p ∈ pts) : p.getD i 0 ≤ coordMax pts i := by
  induction pts with
  | nil => cases h
  | cons q qs ih =>
    rcases List.mem_cons.mp h with rfl | hmem
    · exact le_max_left _ _
    · exact le_trans (ih hmem) (le_max_right _ _)

lemma coordMin_le_getD (pts : List Point) (p : Point) (i : ℕ)
    (h : p ∈ pts) : coordMin pts i ≤ p.getD i 0 := by
  induction pts with
  | nil => cases h
  | cons q qs ih =>
    rcases List.mem_cons.mp h with rfl | hmem
    · exact min_le_left _ _
    · exact le_trans (min_le_right _ _) (ih hmem)

lemma satisfies_bboxHS (d : ℕ) (pts : List Point) (p : Point)
    (hp : p ∈ pts) (hs : HalfSpace) (hmem : hs ∈ bboxHS d pts) :
    satisfiesHS p hs := by
  simp only [bboxHS, List.mem_flatMap, List.mem_range] at hmem
  obtain ⟨i, hi, hcases⟩ := hmem
  simp only [List.mem_cons, List.mem_singleton] at hcases
  rcases hcases with rfl | rfl | hfalse
  · show dotP (unitP d i) p ≤ coordMax pts i
    rw [dotP_unitP d i p hi]
    exact getD_le_coordMax pts p i hp
  · show dotP ((unitP d i).map fun x => -x) p ≤ -(coordMin pts i)
    rw [dotP_negate, dotP_unitP d i p hi]
    exact neg_le_neg (coordMin_le_getD pts p i hp)
  · cases hfalse

/-! ### Claim theorems: ConvexityHelper -/

/-- Claim C4: on an input whose affine span has dimension strictly less than
the ambient dimension (all points in a common hyperplane), and under the
hull-kernel degeneracy contract (a kernel run on an affinely degenerate
range does not reach the completed status), `computeLatticePolytope`
returns the empty-polytope sentinel, and the boundary, convex-hull-complex
and Delaunay-complex builders all return false — all as ordinary return
values of total functions. -/
theorem claim4_degenerate_inputs (d : ℕ)
    (kernel dkernel : List Point → HullRun) (input : List Point)
    (rd ms : Bool)
    (hlen : ∀ p ∈ input, p.length = d)
    (hdeg : affineDegenerate d input)
    (hker : ∀ pts, affineDegenerate d pts →
      (kernel pts).status ≠ HullStatus.AllCompleted)
    (hdker : ∀ pts, affineDegenerate (d + 1) pts →
      (dkernel pts).status ≠ HullStatus.AllCompleted) :
    computeLatticePolytope d kernel input rd ms = none
    ∧ (computeConvexHullBoundary d kernel input rd).1 = false
    ∧ (computeConvexHullCellComplex kernel input rd).1 = false
    ∧ (computeDelaunayCellComplex dkernel input rd).1 = false := by
  have hdeg2 : affineDegenerate d (processInput rd input) :=
    affineDegenerate_processInput d rd input hdeg
  have hlen2 : ∀ p ∈ processInput rd input, p.length = d :=
    fun p hp => hlen p (processInput_subset rd input p hp)
  have hlift : affineDegenerate (d + 1)
      ((processInput rd input).map liftPoint) :=
    affineDegenerate_lift d _ hlen2 hdeg2
  refine ⟨?_, ?_, ?_, ?_⟩
  · simp only [computeLatticePolytope]
    rw [if_neg (hker _ hdeg2)]
  · simp only [computeConvexHullBoundary]
    rw [if_neg (hker _ hdeg2)]
  · simp only [computeConvexHullCellComplex]
    rw [if_neg (hker _ hdeg2)]
  · simp only [computeDelaunayCellComplex]
    rw [if_neg (hdker _ hlift)]

/-- Claim C4 witness: three collinear 2D points with the never-completing
kernel stub on both kernel slots; the hyperplane y = 0 witnesses
degeneracy, and the stub satisfies both kernel contracts since it never
reports completion. -/
theorem claim4_degenerate_witness :
    ((∀ p ∈ collinearInput, p.length = 2)
      ∧ affineDegenerate 2 collinearInput)
    ∧ (computeLatticePolytope 2 haltedKernel collinearInput true true = none
      ∧ (computeConvexHullBoundary 2 haltedKernel collinearInput true).1
          = false
      ∧ (computeConvexHullCellComplex haltedKernel collinearInput true).1
          = false
      ∧ (computeDelaunayCellComplex haltedKernel collinearInput true).1
          = false) :=
  ⟨⟨by decide, ⟨[0, 1], 0, by decide, ⟨1, by decide, by decide⟩,
      by decide⟩⟩,
   claim4_degenerate_inputs 2 haltedKernel haltedKernel collinearInput
     true true (by decide)
     ⟨[0, 1], 0, by decide, ⟨1, by decide, by decide⟩, by decide⟩
     (fun pts _ h => nomatch h) (fun pts _ h => nomatch h)⟩

/-- Claim C5: under the hull-kernel facet contract (every half-space the
kernel reports supports every point it was given), every half-space of a
polytope returned by `computeLatticePolytope` is satisfied by every input
point, for all values of the two boolean toggles — the appended
bounding-box constraints are verified outright. -/
theorem claim5_polytope_feasibility (d : ℕ)
    (kernel : List Point → HullRun) (input : List Point) (rd ms : Bool)
    (hker : ∀ pts hs, hs ∈ (kernel pts).facetHalfspaces →
      ∀ p ∈ pts, satisfiesHS p hs)
    (P : List HalfSpace)
    (hP : computeLatticePolytope d kernel input rd ms = some P) :
    ∀ hs ∈ P, ∀ p ∈ input, satisfiesHS p hs := by
  intro hs hmem p hp
  simp only [computeLatticePolytope] at hP
  by_cases hst : (kernel (processInput rd input)).status
      = HullStatus.AllCompleted
  · rw [if_pos hst, Option.some_inj] at hP
    subst hP
    rcases List.mem_append.mp hmem with hfac | hbox
    · exact hker _ hs hfac p (mem_processInput rd input p hp)
    · cases ms with
      | false => cases hbox
      | true =>
        simp only [if_pos] at hbox
        exact satisfies_bboxHS d _ p (mem_processInput rd input p hp)
          hs hbox
  · rw [if_neg hst] at hP
    cases hP

/-- Claim C5 witness: the facet-free completed kernel trivially satisfies
the facet contract, and on the input [[0,0],[3,1]] with both toggles set
the returned polytope (the four bounding-box half-spaces) is satisfied by
both input points. -/
theorem claim5_polytope_feasibility_witness :
    (∀ pts hs, hs ∈ (completedKernel pts).facetHalfspaces →
      ∀ p ∈ pts, satisfiesHS p hs)
    ∧ (∀ hs ∈ bboxPolytope, ∀ p ∈ [[0, 0], [3, 1]],
        satisfiesHS p hs) :=
  ⟨by intro pts hs h; simp [completedKernel] at h,
   claim5_polytope_feasibility 2 completedKernel [[0, 0], [3, 1]] true true
     (by intro pts hs h; simp [completedKernel] at h) bboxPolytope
     (by decide)⟩

/-- Claim C6: whenever `computeConvexHullBoundary` returns true, the
produced surface has Euler characteristic 0 in even ambient dimension and
2 in odd ambient dimension (the builder verifies this parity-based value,
per the spec and the header's promise that true means the output mesh is
correct). -/
theorem claim6_boundary_euler (d : ℕ) (kernel : List Point → HullRun)
    (input : List Point) (rd : Bool)
    (h : (computeConvexHullBoundary d kernel input rd).1 = true) :
    eulerCharacteristic (computeConvexHullBoundary d kernel input rd).2
      = expectedEuler d := by
  simp only [computeConvexHullBoundary] at h ⊢
  by_cases hst : (kernel (processInput rd input)).status
      = HullStatus.AllCompleted
  · rw [if_pos hst] at h ⊢
    simpa using of_decide_eq_true h
  · rw [if_neg hst] at h
    cases h

/-- Claim C6 witness: the 8 corners of the 3D unit cube, with the genuine
cube hull run (8 vertices, 6 quad facets), yield a successful build whose
surface has V − E + F = 8 − 12 + 6 = 2 = expected value in odd dimension
3. -/
theorem claim6_boundary_euler_witness :
    (computeConvexHullBoundary 3 cubeKernel cubeInput true).1 = true
    ∧ eulerCharacteristic
        (computeConvexHullBoundary 3 cubeKernel cubeInput true).2
        = expectedEuler 3
    ∧ expectedEuler 3 = 2 :=
  ⟨by decide,
   claim6_boundary_euler 3 cubeKernel cubeInput true (by decide),
   by decide⟩

/-- Normalizing a ridge in either orientation yields the same canonical
representative. -/
lemma normRidge_swap (a b : ℕ) : normRidge (b, a) = normRidge (a, b) := by
  unfold normRidge
  rcases Nat.le_total a b with h | h
  · rcases Nat.eq_or_lt_of_le h with rfl | hlt
    · simp
    · rw [if_neg (Nat.not_le.mpr hlt), if_pos h]
  · rcases Nat.eq_or_lt_of_le h with rfl | hlt
    · simp
    · rw [if_pos h, if_neg (Nat.not_le.mpr hlt)]

/-- In a list of pairs with pairwise distinct keys, a key determines its
value. -/
lemma value_unique_of_nodup_keys {α β : Type} (l : List (α × β))
    (hnd : (l.map Prod.fst).Nodup) (a : α) (b1 b2 : β)
    (h1 : (a, b1) ∈ l) (h2 : (a, b2) ∈ l) : b1 = b2 := by
  induction l with
  | nil => cases h1
  | cons e es ih =>
    simp only [List.map_cons, List.nodup_cons] at hnd
    rcases List.mem_cons.mp h1 with he1 | ht1 <;>
      rcases List.mem_cons.mp h2 with he2 | ht2
    · rw [← he1] at he2
      exact congrArg Prod.snd he2.symm
    · exact absurd (List.mem_map.mpr ⟨(a, b2), ht2, by rw [← he1]⟩) hnd.1
    · exact absurd (List.mem_map.mpr ⟨(a, b1), ht1, by rw [← he2]⟩) hnd.1
    · exact ih hnd.2 ht1 ht2

/-- Invariant of the ridge-to-facet fold: starting from an accumulator with
distinct ridge keys whose assigned indices are exactly 0..len-1 in order,
the fold preserves both properties, and the final key set is the union of
the initial keys and the normalized enumerated ridges. -/
lemma foldl_insertRidge_inv (l : List ((ℕ × ℕ) × List ℕ)) :
    ∀ (m : List ((ℕ × ℕ) × ℕ)) (fv : List (List ℕ)),
    (m.map Prod.fst).Nodup →
    m.map Prod.snd = List.range fv.length →
    ((l.foldl insertRidge (m, fv)).1.map Prod.fst).Nodup
    ∧ (l.foldl insertRidge (m, fv)).1.map Prod.snd
        = List.range (l.foldl insertRidge (m, fv)).2.length
    ∧ (∀ r, r ∈ (l.foldl insertRidge (m, fv)).1.map Prod.fst ↔
        (r ∈ m.map Prod.fst ∨ r ∈ l.map fun rv => normRidge rv.1)) := by
  induction l with
  | nil =>
    intro m fv h1 h2
    simpa using ⟨h1, h2⟩
  | cons rv l ih =>
    intro m fv h1 h2
    rw [List.foldl_cons]
    by_cases hmem : normRidge rv.1 ∈ m.map Prod.fst
    · have hstep : insertRidge (m, fv) rv = (m, fv) := by
        simp [insertRidge, hmem]
      rw [hstep]
      obtain ⟨g1, g2, g3⟩ := ih m fv h1 h2
      refine ⟨g1, g2, fun r => ?_⟩
      rw [g3 r]
      simp only [List.map_cons, List.mem_cons]
      constructor
      · rintro (h | h)
        · exact Or.inl h
        · exact Or.inr (Or.inr h)
      · rintro (h | rfl | h)
        · exact Or.inl h
        · exact Or.inl hmem
        · exact Or.inr h
    · have hstep : insertRidge (m, fv) rv
          = (m ++ [(normRidge rv.1, fv.length)], fv ++ [rv.2]) := by
        simp [insertRidge, hmem]
      rw [hstep]
      have h1new : ((m ++ [(normRidge rv.1, fv.length)]).map
          Prod.fst).Nodup := by
        simp only [List.map_append, List.map_cons, List.map_nil]
        rw [List.nodup_append]
        refine ⟨h1, List.nodup_singleton _, ?_⟩
        intro a ha hb
        simp only [List.mem_singleton] at hb
        subst hb
        exact hmem ha
      have h2new : (m ++ [(normRidge rv.1, fv.length)]).map Prod.snd
          = List.range (fv ++ [rv.2]).length := by
        simp only [List.map_append, List.map_cons, List.map_nil,
          List.length_append, List.length_singleton]
        rw [h2, ← List.range_succ]
      obtain ⟨g1, g2, g3⟩ := ih _ _ h1new h2new
      refine ⟨g1, g2, fun r => ?_⟩
      rw [g3 r]
      simp only [List.map_append, List.map_cons, List.map_nil,
        List.mem_append, List.mem_cons, List.mem_singleton,
        List.not_mem_nil, or_false]
      tauto

/-- Claim C7: in the ridge-to-facet map produced by
`computeFacetAndRidgeVertices`, every ridge of the hull's ridge enumeration
— identified as an unordered pair of cells, via its canonical
representative — maps to exactly one facet index; the map's keys are
exactly the normalized enumerated ridges, pairwise distinct; the assigned
facet indices are exactly 0, 1, ... in first-encounter order over the
hull's ridge enumeration (a fresh index the first time each unordered
ridge is seen); and every assigned facet index is the image of at least one
ridge.  The first conjunct makes the unordered identification explicit:
the canonical representative is invariant under swapping the two cells. -/
theorem claim7_ridge_to_facet (run : HullRun) :
    (∀ a b : ℕ, normRidge (b, a) = normRidge (a, b))
    ∧ ((computeFacetAndRidgeVertices run).2.1.map Prod.fst).Nodup
    ∧ (computeFacetAndRidgeVertices run).2.1.map Prod.snd
        = List.range (computeFacetAndRidgeVertices run).2.2.length
    ∧ (∀ r ∈ run.ridges.map Prod.fst,
        ∃! k, (normRidge r, k) ∈ (computeFacetAndRidgeVertices run).2.1)
    ∧ (∀ r, r ∈ (computeFacetAndRidgeVertices run).2.1.map Prod.fst
        ↔ r ∈ run.ridges.map fun rv => normRidge rv.1)
    ∧ (∀ k, k < (computeFacetAndRidgeVertices run).2.2.length →
        ∃ r, (r, k) ∈ (computeFacetAndRidgeVertices run).2.1) := by
  simp only [computeFacetAndRidgeVertices]
  obtain ⟨g1, g2, g3⟩ :=
    foldl_insertRidge_inv run.ridges [] [] (by simp) (by simp)
  have gkeys : ∀ r, r ∈ (run.ridges.foldl insertRidge ([], [])).1.map
      Prod.fst ↔ r ∈ run.ridges.map fun rv => normRidge rv.1 :=
    fun r => by simpa using g3 r
  refine ⟨normRidge_swap, g1, g2, ?_, gkeys, ?_⟩
  · intro r hr
    obtain ⟨rv, hrv, hfst⟩ := List.mem_map.mp hr
    have hkey : normRidge r ∈ (run.ridges.foldl insertRidge ([], [])).1.map
        Prod.fst :=
      (gkeys (normRidge r)).mpr
        (List.mem_map.mpr ⟨rv, hrv, by rw [hfst]⟩)
    obtain ⟨e, he, hefst⟩ := List.mem_map.mp hkey
    refine ⟨e.2, ?_, ?_⟩
    · rw [← hefst]
      exact he
    · intro k hk
      exact value_unique_of_nodup_keys _ g1 (normRidge r) k e.2 hk
        (by rw [← hefst]; exact he)
  · intro k hk
    have hkmem : k ∈ (run.ridges.foldl insertRidge ([], [])).1.map
        Prod.snd := by
      rw [g2]
      exact List.mem_range.mpr hk
    obtain ⟨e, he, hek⟩ := List.mem_map.mp hkmem
    refine ⟨e.1, ?_⟩
    rw [← hek]
    exact he

/-- Claim C7 witness: on the concrete run whose six-entry ridge enumeration
lists each of the three unordered ridges {0,1}, {0,2}, {1,2} twice (once
from each incident cell), the map has exactly the three canonical ridges as
keys, assigns the facet indices 0, 1, 2 in first-encounter order, each
enumerated ridge (in either orientation) maps to exactly one index, and
every index is hit. -/
theorem claim7_ridge_to_facet_witness :
    (∀ a b : ℕ, normRidge (b, a) = normRidge (a, b))
    ∧ ((computeFacetAndRidgeVertices ridgeRun).2.1.map Prod.fst).Nodup
    ∧ (computeFacetAndRidgeVertices ridgeRun).2.1.map Prod.snd
        = List.range (computeFacetAndRidgeVertices ridgeRun).2.2.length
    ∧ (∀ r ∈ ridgeRun.ridges.map Prod.fst,
        ∃! k, (normRidge r, k) ∈ (computeFacetAndRidgeVertices ridgeRun).2.1)
    ∧ (∀ r, r ∈ (computeFacetAndRidgeVertices ridgeRun).2.1.map Prod.fst
        ↔ r ∈ ridgeRun.ridges.map fun rv => normRidge rv.1)
    ∧ (∀ k, k < (computeFacetAndRidgeVertices ridgeRun).2.2.length →
        ∃ r, (r, k) ∈ (computeFacetAndRidgeVertices ridgeRun).2.1) :=
  claim7_ridge_to_facet ridgeRun

end DGtalV
